import Mathlib

/-!
Verification of the transit `datakey` endpoint (`pathDatakeyWrite`) of the
vault repository, together with the envelope-encryption policy engine it
drives.  The Go handler is embedded shallowly: request fields become a
structure, the external collaborators (lock manager, policy encryption,
the random source) become an explicit environment of functions, and the
handler body is translated statement by statement, accumulating a trace of
the observable effects (allocations, lock operations, storage operations,
random reads) so that frame and lock-discipline properties are statable.
-/

namespace Vault

/-! ## Base64 (Go `encoding/base64` StdEncoding, strict mode) -/

/-- Byte-value to base64 alphabet character (the standard alphabet). -/
def b64Char (n : Nat) : Char :=
  if n < 26 then Char.ofNat (65 + n)
  else if n < 52 then Char.ofNat (97 + (n - 26))
  else if n < 62 then Char.ofNat (48 + (n - 52))
  else if n = 62 then Char.ofNat 43
  else Char.ofNat 47

/-- Base64 alphabet character back to its 6-bit value; `none` for any
character outside the alphabet (including the padding character). -/
def b64Val (ch : Char) : Option Nat :=
  let c := ch.toNat
  if 65 ≤ c ∧ c ≤ 90 then some (c - 65)
  else if 97 ≤ c ∧ c ≤ 122 then some (c - 97 + 26)
  else if 48 ≤ c ∧ c ≤ 57 then some (c - 48 + 52)
  else if c = 43 then some 62
  else if c = 47 then some 63
  else none

/-- The padding character. -/
def padChar : Char := Char.ofNat 61

/-- `base64.StdEncoding.EncodeToString`: three input bytes become four
alphabet characters; a final group of one or two bytes is padded. -/
def base64EncodeList : List Nat → List Char
  | [] => []
  | [a] => [b64Char (a / 4), b64Char (a % 4 * 16), padChar, padChar]
  | [a, b] => [b64Char (a / 4), b64Char (a % 4 * 16 + b / 16),
               b64Char (b % 16 * 4), padChar]
  | a :: b :: c :: rest =>
      b64Char (a / 4) :: b64Char (a % 4 * 16 + b / 16) ::
      b64Char (b % 16 * 4 + c / 64) :: b64Char (c % 64) ::
      base64EncodeList rest

/-- `base64.StdEncoding.DecodeString` (strict): input length must be a
multiple of four, padding may appear only in the final group, and the
unused low bits of a padded group must be zero. -/
def base64DecodeList : List Char → Option (List Nat)
  | [] => some []
  | c1 :: c2 :: c3 :: c4 :: rest =>
    match b64Val c1, b64Val c2 with
    | some v1, some v2 =>
      if c3 = padChar then
        if c4 = padChar ∧ rest = [] ∧ v2 % 16 = 0 then
          some [v1 * 4 + v2 / 16]
        else none
      else
        match b64Val c3 with
        | some v3 =>
          if c4 = padChar then
            if rest = [] ∧ v3 % 4 = 0 then
              some [v1 * 4 + v2 / 16, v2 % 16 * 16 + v3 / 4]
            else none
          else
            match b64Val c4 with
            | some v4 =>
              (base64DecodeList rest).map fun bs =>
                (v1 * 4 + v2 / 16) :: (v2 % 16 * 16 + v3 / 4) ::
                ((v3 % 4 * 64 + v4) :: bs)
            | none => none
        | none => none
    | _, _ => none
  | _ => none

/-- String wrapper for encoding, as the Go handler consumes it. -/
def base64EncodeStr (bs : List Nat) : String := String.mk (base64EncodeList bs)

/-- String wrapper for decoding. -/
def base64DecodeStr (s : String) : Option (List Nat) := base64DecodeList s.data

theorem b64Val_b64Char : ∀ n, n < 64 → b64Val (b64Char n) = some n := by decide

theorem b64Char_ne_pad : ∀ n, n < 64 → b64Char n ≠ padChar := by decide

theorem base64_roundtrip (bs : List Nat) (h : ∀ b ∈ bs, b < 256) :
    base64DecodeList (base64EncodeList bs) = some bs := by
  induction bs using base64EncodeList.induct with
  | case1 => rfl
  | case2 a =>
    have ha : a < 256 := h a (by simp)
    have h1 : a / 4 < 64 := by omega
    have h2 : a % 4 * 16 < 64 := by omega
    simp only [base64EncodeList, base64DecodeList,
      b64Val_b64Char _ h1, b64Val_b64Char _ h2]
    have e1 : a % 4 * 16 % 16 = 0 := by omega
    have e2 : a / 4 * 4 + a % 4 * 16 / 16 = a := by omega
    simp [e1, e2]
    omega
  | case3 a b =>
    have ha : a < 256 := h a (by simp)
    have hb : b < 256 := h b (by simp)
    have h1 : a / 4 < 64 := by omega
    have h2 : a % 4 * 16 + b / 16 < 64 := by omega
    have h3 : b % 16 * 4 < 64 := by omega
    simp only [base64EncodeList, base64DecodeList,
      b64Val_b64Char _ h1, b64Val_b64Char _ h2, b64Val_b64Char _ h3]
    rw [if_neg (b64Char_ne_pad _ h3)]
    have e1 : b % 16 * 4 % 4 = 0 := by omega
    have e2 : a / 4 * 4 + (a % 4 * 16 + b / 16) / 16 = a := by omega
    have e3 : (a % 4 * 16 + b / 16) % 16 * 16 + b % 16 * 4 / 4 = b := by omega
    simp [e1, e2, e3]
    omega
  | case4 a b c rest ih =>
    have ha : a < 256 := h a (by simp)
    have hb : b < 256 := h b (by simp)
    have hc : c < 256 := h c (by simp)
    have hrest : ∀ x ∈ rest, x < 256 := fun x hx => h x (by simp [hx])
    have h1 : a / 4 < 64 := by omega
    have h2 : a % 4 * 16 + b / 16 < 64 := by omega
    have h3 : b % 16 * 4 + c / 64 < 64 := by omega
    have h4 : c % 64 < 64 := by omega
    simp only [base64EncodeList, base64DecodeList,
      b64Val_b64Char _ h1, b64Val_b64Char _ h2, b64Val_b64Char _ h3,
      b64Val_b64Char _ h4]
    rw [if_neg (b64Char_ne_pad _ h3), if_neg (b64Char_ne_pad _ h4)]
    have e1 : a / 4 * 4 + (a % 4 * 16 + b / 16) / 16 = a := by omega
    have e2 : (a % 4 * 16 + b / 16) % 16 * 16 + (b % 16 * 4 + c / 64) / 4 = b := by
      omega
    have e3 : (b % 16 * 4 + c / 64) % 4 * 64 + c % 64 = c := by omega
    simp [ih hrest, e1, e2, e3]

theorem base64DecodeStr_encodeStr (bs : List Nat) (h : ∀ b ∈ bs, b < 256) :
    base64DecodeStr (base64EncodeStr bs) = some bs :=
  base64_roundtrip bs h

/-! ## Key policy engine

The transit handler calls `b.lm.GetPolicy` and `p.Encrypt`, whose
implementations are outside the sampled fragment.  The policy record and
its operations below are therefore modelled from the specification
(sections 3, 4.1, 4.3, 4.4, 9). -/

/-- Lock modes granted by the Lock Manager: shared for
encrypt/decrypt/datakey, exclusive for rotation/creation. -/
inductive LockType
  | shared
  | exclusive
deriving DecidableEq, Repr

/-- Errors surfaced by the policy engine, mirroring the
`certutil.UserError` / `certutil.InternalError` / other split the handler
switches on. -/
inductive TransitErr
  | user (msg : String)
  | internal (msg : String)
  | other (msg : String)
deriving DecidableEq, Repr

/-- Modelled from the spec: the Policy Record (section 3) — versioned key
material and metadata for one named key.  `versions` holds the key bytes of
versions `1 .. versions.length` in order. -/
structure Policy where
  name : String
  versions : List (List Nat)
  latestVersion : Nat
  minDecryptionVersion : Nat
  minEncryptionVersion : Nat
  derived : Bool
  convergentEncryption : Bool
deriving DecidableEq, Repr

/-- The Policy Record invariants of section 3. -/
def Policy.WF (p : Policy) : Prop :=
  p.versions ≠ [] ∧
  p.latestVersion = p.versions.length ∧
  1 ≤ p.minDecryptionVersion ∧
  p.minDecryptionVersion ≤ p.minEncryptionVersion ∧
  p.minEncryptionVersion ≤ p.latestVersion ∧
  (p.convergentEncryption = true → p.derived = true)

instance (p : Policy) : Decidable p.WF := by
  unfold Policy.WF
  infer_instance

/-- i-th byte of the repeating keystream drawn from `key`. -/
def keyByte (key : List Nat) (i : Nat) : Nat := key.getD (i % key.length) 0

/-- XOR a byte list against the keystream starting at position `i`. -/
def xorStreamAux (key : List Nat) : Nat → List Nat → List Nat
  | _, [] => []
  | i, b :: bs => (b ^^^ keyByte key i) :: xorStreamAux key (i + 1) bs

/-- Modelled from the spec: the Cipher core (section 4.4) as a keystream
cipher — applying it twice with the same key is the identity. -/
def xorStream (key bs : List Nat) : List Nat := xorStreamAux key 0 bs

/-- Modelled from the spec: the authentication tag the Cipher associates
with a sealed message (deterministic in key and message). -/
def macTag (key m : List Nat) : Nat := (key.sum + m.sum * 31) % 65536

/-- Modelled from the spec: the Context Deriver (section 4.3) — a
deterministic pure derivation of a per-context sub-key. -/
def deriveContextKey (key ctx : List Nat) : List Nat := xorStream ctx key

/-- Modelled from the spec: the version-tagged ciphertext envelope
(section 9): `{version, ciphertext}` plus the Cipher authentication tag. -/
structure Envelope where
  version : Nat
  ciphertext : List Nat
  tag : Nat
deriving DecidableEq, Repr

/-- Modelled from the spec: resolve the key for one version, deriving a
sub-key from the context when the policy is derived (sections 4.1, 4.3). -/
def Policy.resolveKey (p : Policy) (version : Nat) (context : List Nat) :
    Except TransitErr (List Nat) :=
  if p.derived = true ∧ context = [] then
    .error (.user "missing context for derived key")
  else
    match p.versions[version - 1]? with
    | some key => .ok (if p.derived then deriveContextKey key context else key)
    | none => .error (.internal "unknown key version")

/-- Modelled from the spec: `encrypt` (section 4.1) — shared access,
latest version, versioned envelope. -/
def Policy.Encrypt (p : Policy) (context m : List Nat) :
    Except TransitErr Envelope :=
  match p.resolveKey p.latestVersion context with
  | .error e => .error e
  | .ok key => .ok ⟨p.latestVersion, xorStream key m, macTag key m⟩

/-- Modelled from the spec: `decrypt` (section 4.1) — rejects versions
below `min_decryption_version`, resolves the tagged version's key, checks
the authentication tag before returning the plaintext. -/
def Policy.Decrypt (p : Policy) (context : List Nat) (e : Envelope) :
    Except TransitErr (List Nat) :=
  if e.version < p.minDecryptionVersion then
    .error (.user "ciphertext version below minimum decryption version")
  else
    match p.resolveKey e.version context with
    | .error err => .error err
    | .ok key =>
      let m := xorStream key e.ciphertext
      if macTag key m = e.tag then .ok m
      else .error (.user "message authentication failed")

theorem xorStreamAux_involutive (key : List Nat) :
    ∀ i bs, xorStreamAux key i (xorStreamAux key i bs) = bs := by
  intro i bs
  induction bs generalizing i with
  | nil => rfl
  | cons b bs ih =>
    simp [xorStreamAux, Nat.xor_cancel_right, ih]

theorem xorStream_involutive (key bs : List Nat) :
    xorStream key (xorStream key bs) = bs :=
  xorStreamAux_involutive key 0 bs

/-! ## The datakey handler (`pathDatakeyWrite`, src/unnamed/part_001)

The handler is embedded statement by statement.  Its collaborators —
the lock manager (`b.lm.GetPolicy` / `b.lm.UnlockPolicy`, which acquires a
lock it hands to the caller exactly when it returns a policy), the random
source (`rand.Read`), and the policy encryption method (`p.Encrypt`) — are
supplied as an environment of functions, and every run records a trace of
the observable effects: storage operations, lock transfer, buffer
allocations (Go `make`), random reads, and encryption calls. -/

/-- The storage backend visible through `req.Storage`: a key/value map. -/
def Storage := List (String × String)
deriving DecidableEq, Repr

/-- Observable effects of one handler run. -/
inductive Event
  | storageGet (key : String)
  | storagePut (key : String)
  | storageDelete (key : String)
  | getPolicyCall (name : String)
  | lockAcquired (name : String) (lt : LockType)
  | lockReleased (name : String) (lt : LockType)
  | alloc (n : Nat)
  | randRead (n : Nat)
  | encryptCall (name : String)
deriving DecidableEq, Repr

/-- External collaborators of the handler. `getPolicy` models
`b.lm.GetPolicy(req.Storage, name)`: an error, no policy, or a policy
handed over together with the lock type held for it.  `randRead n` models
`rand.Read` into a buffer of length `n`.  `encrypt p context value` models
`p.Encrypt(context, value)`. -/
structure TransitEnv where
  getPolicy : Storage → String → Except String (Option (Policy × LockType))
  randRead : Nat → Except String (List Nat)
  encrypt : Policy → List Nat → String → Except TransitErr String

/-- `rand.Read` fills the whole buffer with bytes on success. -/
def EnvOk (env : TransitEnv) : Prop :=
  ∀ n bs, env.randRead n = .ok bs → bs.length = n ∧ ∀ b ∈ bs, b < 256

/-- Outcome of the Go pair `(*logical.Response, error)`:
`errResp m` is `(logical.ErrorResponse(m), logical.ErrInvalidRequest)`;
`fail m` is `(nil, err)`; `ok ct pt` is a success response whose data map
holds `ciphertext` and, exactly when `pt` is `some`, a `plaintext` field. -/
inductive HandlerResult
  | errResp (msg : String)
  | fail (msg : String)
  | ok (ciphertext : String) (plaintext : Option String)
deriving DecidableEq, Repr

/-- One run of the handler: its result, its effect trace, and the storage
as the backend sees it afterwards. -/
structure HandlerRun where
  result : HandlerResult
  trace : List Event
  storage : Storage
deriving DecidableEq, Repr

/-- The request fields of the `datakey/:plaintext/:name` path.  `bits` is
`none` when the caller did not supply the field; `framework.FieldSchema`
then applies the declared default 256 (`pathDatakey`, src/unnamed/part_001
lines 33-38). -/
structure DatakeyFields where
  name : String
  plaintext : String
  context : String
  bits : Option Int
deriving DecidableEq, Repr

/-- `d.Get("bits").(int)`: the supplied value or the schema default 256. -/
def DatakeyFields.getBits (d : DatakeyFields) : Int := d.bits.getD 256

/-- The `switch bits` buffer sizing: 512 → 64 bytes, 256 → 32 bytes
(the initial buffer), 128 → 16 bytes, anything else invalid. -/
def bitsBufLen : Int → Option Nat
  | 512 => some 64
  | 256 => some 32
  | 128 => some 16
  | _ => none

/-- The message `Invalid path, must be 'plaintext' or 'wrapped'`. -/
def invalidPathMsg : String :=
  "Invalid path, must be " ++ String.mk [Char.ofNat 39] ++ "plaintext" ++
    String.mk [Char.ofNat 39] ++ " or " ++ String.mk [Char.ofNat 39] ++
    "wrapped" ++ String.mk [Char.ofNat 39]

/-- Lines 64-73: an empty `context` field stays `nil`; a non-empty one must
decode as standard base64. -/
def decodeContextField (raw : String) : Option (List Nat) :=
  if raw = "" then some [] else base64DecodeStr raw

/-- Lines 85-128 of `pathDatakeyWrite`: everything that runs while the
policy lock is held (after `defer b.lm.UnlockPolicy`).  `newKey :=
make([]byte, 32)` allocates before the `bits` switch; valid sizes other
than 256 reallocate.  On success the response carries the ciphertext and,
only when the path said `plaintext`, the base64 plaintext. -/
def allocEvents (n : Nat) : List Event :=
  if n = 32 then [.alloc 32] else [.alloc 32, .alloc n]

def datakeyBody (env : TransitEnv) (p : Policy) (d : DatakeyFields)
    (context : List Nat) (plaintextAllowed : Bool) :
    HandlerResult × List Event :=
  match bitsBufLen d.getBits with
  | none => (.errResp "invalid bit length", [.alloc 32])
  | some n =>
    match env.randRead n with
    | .error e => (.fail e, allocEvents n ++ [.randRead n])
    | .ok newKey =>
      match env.encrypt p context (base64EncodeStr newKey) with
      | .error (.user m) =>
          (.errResp m, allocEvents n ++ [.randRead n, .encryptCall d.name])
      | .error (.internal m) =>
          (.fail m, allocEvents n ++ [.randRead n, .encryptCall d.name])
      | .error (.other m) =>
          (.fail m, allocEvents n ++ [.randRead n, .encryptCall d.name])
      | .ok ct =>
        if ct = "" then
          (.fail "empty ciphertext returned",
           allocEvents n ++ [.randRead n, .encryptCall d.name])
        else
          (.ok ct (if plaintextAllowed then some (base64EncodeStr newKey)
                   else none),
           allocEvents n ++ [.randRead n, .encryptCall d.name])

/-- Lines 50-128 of `pathDatakeyWrite`: validate the path mode, decode the
context, fetch the policy (failing when it does not exist), run the locked
body, and release the lock on the way out (`defer`). -/
def pathDatakeyWrite (env : TransitEnv) (st : Storage) (d : DatakeyFields) :
    HandlerRun :=
  if d.plaintext ≠ "plaintext" ∧ d.plaintext ≠ "wrapped" then
    ⟨.errResp invalidPathMsg, [], st⟩
  else
    let plaintextAllowed := d.plaintext == "plaintext"
    match decodeContextField d.context with
    | none => ⟨.errResp "failed to decode context as base64", [], st⟩
    | some context =>
      match env.getPolicy st d.name with
      | .error e => ⟨.fail e, [.getPolicyCall d.name], st⟩
      | .ok none => ⟨.errResp "policy not found", [.getPolicyCall d.name], st⟩
      | .ok (some (p, lt)) =>
        let body := datakeyBody env p d context plaintextAllowed
        ⟨body.1,
         ([.getPolicyCall d.name, .lockAcquired d.name lt] ++ body.2) ++
           [.lockReleased d.name lt],
         st⟩

/-! ## Concrete sample data for evaluating the handler -/

/-- A 32-byte key for the sample policy. -/
def sampleKey : List Nat := List.replicate 32 1

/-- A well-formed, non-derived policy named `test` with one version. -/
def samplePolicy : Policy :=
  { name := "test", versions := [sampleKey], latestVersion := 1,
    minDecryptionVersion := 1, minEncryptionVersion := 1,
    derived := false, convergentEncryption := false }

/-- Environment where policy `test` exists (shared lock), the random
source yields zero bytes, and encryption prepends a version tag. -/
def sampleEnv : TransitEnv :=
  { getPolicy := fun _ n =>
      if n = "test" then .ok (some (samplePolicy, .shared)) else .ok none,
    randRead := fun n => .ok (List.replicate n 0),
    encrypt := fun _ _ s => .ok ("1:" ++ s) }

/-- Like `sampleEnv` but encryption returns an empty ciphertext string. -/
def emptyCtEnv : TransitEnv :=
  { getPolicy := fun _ n =>
      if n = "test" then .ok (some (samplePolicy, .shared)) else .ok none,
    randRead := fun n => .ok (List.replicate n 0),
    encrypt := fun _ _ _ => .ok "" }

def dPlain : DatakeyFields := ⟨"test", "plaintext", "", none⟩

def dWrapped : DatakeyFields := ⟨"test", "wrapped", "", none⟩

def dBits200 : DatakeyFields := ⟨"test", "wrapped", "", some 200⟩

def dMissing : DatakeyFields := ⟨"nosuch", "wrapped", "", none⟩

def dBadCtx : DatakeyFields := ⟨"test", "plaintext", "!!", none⟩

theorem sampleEnv_ok : EnvOk sampleEnv := by
  intro n bs h
  have hbs : List.replicate n 0 = bs := by
    simpa [sampleEnv] using h
  subst hbs
  refine ⟨List.length_replicate _ _, fun b hb => ?_⟩
  have := List.eq_of_mem_replicate hb
  omega

/-! ## Helper lemmas about the handler -/

theorem bitsBufLen_inv (b : Int) (n : Nat) (h : bitsBufLen b = some n) :
    b = 8 * (n : Int) ∧ (b = 128 ∨ b = 256 ∨ b = 512) := by
  unfold bitsBufLen at h
  split at h <;> simp_all <;> omega

theorem allocEvents_mem (n : Nat) (e : Event) (he : e ∈ allocEvents n) :
    ∃ m, e = Event.alloc m := by
  unfold allocEvents at he
  split at he
  · simp at he
    exact ⟨32, he⟩
  · simp at he
    rcases he with he | he
    · exact ⟨32, he⟩
    · exact ⟨n, he⟩

theorem datakeyBody_events (env : TransitEnv) (p : Policy)
    (d : DatakeyFields) (context : List Nat) (pa : Bool) :
    ∀ e ∈ (datakeyBody env p d context pa).2,
      (∃ m, e = Event.alloc m) ∨ (∃ m, e = Event.randRead m) ∨
      e = Event.encryptCall d.name := by
  have hstep : ∀ (n : Nat) (e : Event),
      e ∈ allocEvents n ++ [Event.randRead n, Event.encryptCall d.name] →
      (∃ m, e = Event.alloc m) ∨ (∃ m, e = Event.randRead m) ∨
      e = Event.encryptCall d.name := by
    intro n e he
    rcases List.mem_append.mp he with he | he
    · exact Or.inl (allocEvents_mem n e he)
    · simp at he
      rcases he with he | he
      · exact Or.inr (Or.inl ⟨n, he⟩)
      · exact Or.inr (Or.inr he)
  intro e he
  unfold datakeyBody at he
  split at he
  · simp at he
    exact Or.inl ⟨32, he⟩
  · rename_i n hbits
    split at he
    · rcases List.mem_append.mp he with he | he
      · exact Or.inl (allocEvents_mem n e he)
      · simp at he
        exact Or.inr (Or.inl ⟨n, he⟩)
    · split at he
      · exact hstep n e he
      · exact hstep n e he
      · exact hstep n e he
      · split at he
        · exact hstep n e he
        · exact hstep n e he

/-! ## Inversion of a successful run -/

theorem datakey_success_inversion (env : TransitEnv) (st : Storage)
    (d : DatakeyFields) (ct : String) (pt : Option String)
    (h : (pathDatakeyWrite env st d).result = .ok ct pt) :
    ∃ context p lt n newKey,
      (d.plaintext = "plaintext" ∨ d.plaintext = "wrapped") ∧
      decodeContextField d.context = some context ∧
      env.getPolicy st d.name = .ok (some (p, lt)) ∧
      bitsBufLen d.getBits = some n ∧
      env.randRead n = .ok newKey ∧
      env.encrypt p context (base64EncodeStr newKey) = .ok ct ∧
      ct ≠ "" ∧
      pt = (if d.plaintext == "plaintext" then some (base64EncodeStr newKey)
            else none) := by
  unfold pathDatakeyWrite at h
  split at h
  · simp at h
  · rename_i hmode
    have hm : d.plaintext = "plaintext" ∨ d.plaintext = "wrapped" := by
      by_cases h1 : d.plaintext = "plaintext"
      · exact Or.inl h1
      · by_cases h2 : d.plaintext = "wrapped"
        · exact Or.inr h2
        · exact absurd ⟨h1, h2⟩ hmode
    simp only at h
    split at h
    · simp at h
    · rename_i context hctx
      split at h
      · simp at h
      · simp at h
      · rename_i p lt hpol
        simp only at h
        unfold datakeyBody at h
        split at h
        · simp at h
        · rename_i n hbits
          split at h
          · simp at h
          · rename_i newKey hrand
            split at h
            · simp at h
            · simp at h
            · simp at h
            · rename_i ctv henc
              split at h
              · simp at h
              · rename_i hct
                simp only at h
                obtain ⟨hcteq, hpteq⟩ := HandlerResult.ok.inj h
                subst hcteq
                exact ⟨context, p, lt, n, newKey, hm, hctx, hpol, hbits,
                  hrand, henc, hct, hpteq.symm⟩

/-! ## Claim theorems -/

/-- C1: a `generate_data_key` request that names a policy not present in
storage fails with the not-found error (`policy not found`, surfaced as an
invalid-request response); no data key is generated (the random source is
never consulted: the trace holds only the policy lookup) and the policy is
never implicitly created (the storage is unchanged and the trace holds no
write). -/
theorem datakey_missing_policy_not_found (env : TransitEnv) (st : Storage)
    (d : DatakeyFields)
    (hmode : d.plaintext = "plaintext" ∨ d.plaintext = "wrapped")
    (hctx : ∃ c, decodeContextField d.context = some c)
    (hnp : env.getPolicy st d.name = .ok none) :
    (pathDatakeyWrite env st d).result = .errResp "policy not found" ∧
    (pathDatakeyWrite env st d).trace = [Event.getPolicyCall d.name] ∧
    (pathDatakeyWrite env st d).storage = st := by
  obtain ⟨c, hc⟩ := hctx
  unfold pathDatakeyWrite
  split
  · rename_i hinv
    rcases hmode with hm | hm <;> exact absurd hm (by simp_all)
  · simp only
    split
    · simp_all
    · rename_i c2 hc2
      split
      · rename_i e he
        rw [hnp] at he
        cases he
      · exact ⟨rfl, rfl, rfl⟩
      · rename_i p lt he
        rw [hnp] at he
        cases he

/-- Witness for C1 at a concrete input: the sample environment has no
policy named `nosuch`. -/
theorem datakey_missing_policy_not_found_witness :
    (pathDatakeyWrite sampleEnv [] dMissing).result =
      .errResp "policy not found" ∧
    (pathDatakeyWrite sampleEnv [] dMissing).trace =
      [Event.getPolicyCall "nosuch"] ∧
    (pathDatakeyWrite sampleEnv [] dMissing).storage = [] :=
  datakey_missing_policy_not_found sampleEnv [] dMissing (Or.inr rfl)
    ⟨[], rfl⟩ rfl

/-- C2, counterexample to the claim as stated: on a request with
`bits = 200` the handler does return the invalid-bit-length error and the
random source is never called, but the trace shows that a 32-byte key
buffer (`newKey := make([]byte, 32)`) was allocated before the `bits`
value was validated, contradicting "validated ... before any key buffer
is allocated". -/
theorem datakey_bits_validation_counterexample :
    (pathDatakeyWrite sampleEnv [] dBits200).result =
      .errResp "invalid bit length" ∧
    (pathDatakeyWrite sampleEnv [] dBits200).trace =
      [Event.getPolicyCall "test", Event.lockAcquired "test" .shared,
       Event.alloc 32, Event.lockReleased "test" .shared] := by
  decide

/-- C2, amended: for every request whose `bits` value is not one of
128/256/512 (that reaches the `bits` switch: valid mode, decodable
context, existing policy), the handler returns the invalid-bit-length
error and the random source is never called, so no key material is
generated — but a default 32-byte buffer has already been allocated when
the validation fails. -/
theorem datakey_invalid_bits_no_key_material (env : TransitEnv)
    (st : Storage) (d : DatakeyFields)
    (hmode : d.plaintext = "plaintext" ∨ d.plaintext = "wrapped")
    (hctx : ∃ c, decodeContextField d.context = some c)
    (hpol : ∃ p lt, env.getPolicy st d.name = .ok (some (p, lt)))
    (hbits : bitsBufLen d.getBits = none) :
    (pathDatakeyWrite env st d).result = .errResp "invalid bit length" ∧
    (∀ n, Event.randRead n ∉ (pathDatakeyWrite env st d).trace) ∧
    Event.alloc 32 ∈ (pathDatakeyWrite env st d).trace := by
  obtain ⟨c, hc⟩ := hctx
  obtain ⟨p, lt, hp⟩ := hpol
  unfold pathDatakeyWrite
  split
  · rcases hmode with hm | hm <;> exact absurd hm (by simp_all)
  · simp only
    split
    · simp_all
    · rename_i c2 hc2
      split
      · rename_i e he
        rw [hp] at he
        cases he
      · rename_i he
        rw [hp] at he
        cases he
      · rename_i p2 lt2 he
        unfold datakeyBody
        rw [hbits]
        simp

/-- Witness for C2's amended theorem at the concrete `bits = 200`
request. -/
theorem datakey_invalid_bits_no_key_material_witness :
    (pathDatakeyWrite sampleEnv [] dBits200).result =
      .errResp "invalid bit length" ∧
    (∀ n, Event.randRead n ∉ (pathDatakeyWrite sampleEnv [] dBits200).trace) ∧
    Event.alloc 32 ∈ (pathDatakeyWrite sampleEnv [] dBits200).trace :=
  datakey_invalid_bits_no_key_material sampleEnv [] dBits200 (Or.inr rfl)
    ⟨[], rfl⟩ ⟨samplePolicy, .shared, rfl⟩ rfl

/-- C3: a successful response carries a `plaintext` field exactly in
`plaintext` mode — in `wrapped` mode the field is absent from the response
data entirely, in `plaintext` mode it is present. -/
theorem datakey_wrapped_omits_plaintext (env : TransitEnv) (st : Storage)
    (d : DatakeyFields) (ct : String) (pt : Option String)
    (h : (pathDatakeyWrite env st d).result = .ok ct pt) :
    (d.plaintext = "wrapped" → pt = none) ∧
    (d.plaintext = "plaintext" → ∃ s, pt = some s) := by
  obtain ⟨context, p, lt, n, newKey, hm, hctx, hpol, hbits, hrand, henc,
    hct, hpt⟩ := datakey_success_inversion env st d ct pt h
  constructor
  · intro hw
    rw [hw] at hpt
    simpa using hpt
  · intro hw
    rw [hw] at hpt
    simp at hpt
    exact ⟨_, hpt⟩

/-- Witness for C3: the sample wrapped-mode run succeeds and its response
has no plaintext field. -/
theorem datakey_wrapped_omits_plaintext_witness :
    (dWrapped.plaintext = "wrapped" → (none : Option String) = none) ∧
    (dWrapped.plaintext = "plaintext" → ∃ s, (none : Option String) = some s) :=
  datakey_wrapped_omits_plaintext sampleEnv [] dWrapped
    ("1:" ++ base64EncodeStr (List.replicate 32 0)) none rfl

/-- C4: in a successful plaintext-mode response the `plaintext` field,
base64-decoded, is exactly `bits/8` bytes — 16 for 128, 32 for 256, 64 for
512 — and an absent `bits` field means the schema default 256, hence 32
bytes. -/
theorem datakey_plaintext_length (env : TransitEnv) (st : Storage)
    (d : DatakeyFields) (ct s : String)
    (henv : EnvOk env)
    (h : (pathDatakeyWrite env st d).result = .ok ct (some s)) :
    ∃ k, base64DecodeStr s = some k ∧ d.getBits = 8 * (k.length : Int) ∧
      (d.bits = none → k.length = 32) := by
  obtain ⟨context, p, lt, n, newKey, hm, hctx, hpol, hbits, hrand, henc,
    hct, hpt⟩ := datakey_success_inversion env st d ct (some s) h
  obtain ⟨hlen, hbound⟩ := henv n newKey hrand
  have hs : s = base64EncodeStr newKey := by
    by_cases hp : d.plaintext = "plaintext"
    · rw [hp] at hpt
      simpa using hpt
    · rw [if_neg (by simpa using hp)] at hpt
      cases hpt
  obtain ⟨h8, _⟩ := bitsBufLen_inv d.getBits n hbits
  refine ⟨newKey, ?_, ?_, ?_⟩
  · rw [hs]
    exact base64DecodeStr_encodeStr newKey hbound
  · rw [h8, hlen]
  · intro hnone
    have : d.getBits = 256 := by
      unfold DatakeyFields.getBits
      rw [hnone]
      rfl
    rw [this] at h8
    omega

/-- Witness for C4 at the sample plaintext-mode run with defaulted
`bits`. -/
theorem datakey_plaintext_length_witness :
    ∃ k, base64DecodeStr (base64EncodeStr (List.replicate 32 0)) = some k ∧
      dPlain.getBits = 8 * (k.length : Int) ∧
      (dPlain.bits = none → k.length = 32) :=
  datakey_plaintext_length sampleEnv [] dPlain
    ("1:" ++ base64EncodeStr (List.replicate 32 0))
    (base64EncodeStr (List.replicate 32 0)) sampleEnv_ok rfl

/-- C5: every successful run generated `bits/8` bytes from the random
source, produced the response ciphertext by encrypting the base64 encoding
of exactly those bytes under the named policy with the decoded context,
and (in plaintext mode) returned the base64 encoding of those same
bytes. -/
theorem datakey_envelope_construction (env : TransitEnv) (st : Storage)
    (d : DatakeyFields) (ct : String) (pt : Option String)
    (h : (pathDatakeyWrite env st d).result = .ok ct pt) :
    ∃ context p lt n newKey,
      decodeContextField d.context = some context ∧
      env.getPolicy st d.name = .ok (some (p, lt)) ∧
      bitsBufLen d.getBits = some n ∧
      d.getBits = 8 * (n : Int) ∧
      env.randRead n = .ok newKey ∧
      env.encrypt p context (base64EncodeStr newKey) = .ok ct ∧
      (d.plaintext = "plaintext" → pt = some (base64EncodeStr newKey)) := by
  obtain ⟨context, p, lt, n, newKey, hm, hctx, hpol, hbits, hrand, henc,
    hct, hpt⟩ := datakey_success_inversion env st d ct pt h
  obtain ⟨h8, _⟩ := bitsBufLen_inv d.getBits n hbits
  refine ⟨context, p, lt, n, newKey, hctx, hpol, hbits, h8, hrand, henc, ?_⟩
  intro hp
  rw [hp] at hpt
  simpa using hpt

/-- Witness for C5 at the sample plaintext-mode run. -/
theorem datakey_envelope_construction_witness :
    ∃ context p lt n newKey,
      decodeContextField dPlain.context = some context ∧
      sampleEnv.getPolicy [] dPlain.name = .ok (some (p, lt)) ∧
      bitsBufLen dPlain.getBits = some n ∧
      dPlain.getBits = 8 * (n : Int) ∧
      sampleEnv.randRead n = .ok newKey ∧
      sampleEnv.encrypt p [] (base64EncodeStr newKey) =
        .ok ("1:" ++ base64EncodeStr (List.replicate 32 0)) ∧
      (dPlain.plaintext = "plaintext" →
        some (base64EncodeStr (List.replicate 32 0)) =
          some (base64EncodeStr newKey)) := by
  obtain ⟨context, p, lt, n, newKey, hctx, hpol, hbits, h8, hrand, henc,
    hpt⟩ := datakey_envelope_construction sampleEnv [] dPlain
      ("1:" ++ base64EncodeStr (List.replicate 32 0))
      (some (base64EncodeStr (List.replicate 32 0))) rfl
  have hc : context = [] := by
    have hd : decodeContextField dPlain.context = some [] := rfl
    rw [hd] at hctx
    exact (Option.some.inj hctx).symm
  rw [hc] at hctx henc
  exact ⟨[], p, lt, n, newKey, hctx, hpol, hbits, h8, hrand, henc,
    fun hp => hpt hp⟩

/-- C6: a request whose non-empty `context` field is not valid base64
fails with an invalid-request error before anything else happens — the
trace is empty (no policy load, no lock, no allocation, no random read)
and the storage is unchanged; when the path mode is valid the error is
exactly the context-decoding message. -/
theorem datakey_bad_context_local_failure (env : TransitEnv) (st : Storage)
    (d : DatakeyFields)
    (hne : d.context ≠ "")
    (hdec : base64DecodeStr d.context = none) :
    (∃ m, (pathDatakeyWrite env st d).result = .errResp m) ∧
    ((d.plaintext = "plaintext" ∨ d.plaintext = "wrapped") →
      (pathDatakeyWrite env st d).result =
        .errResp "failed to decode context as base64") ∧
    (pathDatakeyWrite env st d).trace = [] ∧
    (pathDatakeyWrite env st d).storage = st := by
  have hctx : decodeContextField d.context = none := by
    unfold decodeContextField
    rw [if_neg hne]
    exact hdec
  unfold pathDatakeyWrite
  split
  · rename_i hinv
    refine ⟨⟨invalidPathMsg, rfl⟩, ?_, rfl, rfl⟩
    intro hm
    rcases hm with hm | hm <;> exact absurd hm (by simp_all)
  · simp only
    split
    · exact ⟨⟨_, rfl⟩, fun _ => rfl, rfl, rfl⟩
    · rename_i c hc
      rw [hctx] at hc
      cases hc

/-- Witness for C6: context `!!` is not base64. -/
theorem datakey_bad_context_local_failure_witness :
    (∃ m, (pathDatakeyWrite sampleEnv [] dBadCtx).result = .errResp m) ∧
    ((dBadCtx.plaintext = "plaintext" ∨ dBadCtx.plaintext = "wrapped") →
      (pathDatakeyWrite sampleEnv [] dBadCtx).result =
        .errResp "failed to decode context as base64") ∧
    (pathDatakeyWrite sampleEnv [] dBadCtx).trace = [] ∧
    (pathDatakeyWrite sampleEnv [] dBadCtx).storage = [] :=
  datakey_bad_context_local_failure sampleEnv [] dBadCtx (by decide)
    (by decide)

/-- C7: whenever a run's trace shows the policy lock being handed to the
handler, the last thing the run does before returning — on the success
path and on every failure path after acquisition (invalid bit length,
random-source failure, encryption failure, empty ciphertext) — is release
that lock (the `defer b.lm.UnlockPolicy` of line 83). -/
theorem datakey_trace_shape (env : TransitEnv) (st : Storage)
    (d : DatakeyFields) :
    (pathDatakeyWrite env st d).trace = [] ∨
    (pathDatakeyWrite env st d).trace = [Event.getPolicyCall d.name] ∨
    ∃ lt body,
      (∀ e ∈ body, (∃ m, e = Event.alloc m) ∨ (∃ m, e = Event.randRead m) ∨
        e = Event.encryptCall d.name) ∧
      (pathDatakeyWrite env st d).trace =
        ([Event.getPolicyCall d.name, Event.lockAcquired d.name lt] ++
          body) ++ [Event.lockReleased d.name lt] := by
  unfold pathDatakeyWrite
  split
  · exact Or.inl rfl
  · simp only
    split
    · exact Or.inl rfl
    · split
      · exact Or.inr (Or.inl rfl)
      · exact Or.inr (Or.inl rfl)
      · rename_i p lt he
        exact Or.inr (Or.inr ⟨lt, _, datakeyBody_events env p d _ _, rfl⟩)

theorem datakey_lock_released_on_all_paths (env : TransitEnv)
    (st : Storage) (d : DatakeyFields) (lt : LockType)
    (h : Event.lockAcquired d.name lt ∈ (pathDatakeyWrite env st d).trace) :
    (pathDatakeyWrite env st d).trace.getLast? =
      some (Event.lockReleased d.name lt) := by
  rcases datakey_trace_shape env st d with hs | hs | ⟨lt2, body, hbody, hs⟩
  · rw [hs] at h
    cases h
  · rw [hs] at h
    simp at h
  · have hlt : lt = lt2 := by
      rw [hs] at h
      rcases List.mem_append.mp h with h | h
      · rcases List.mem_append.mp h with h | h
        · rcases List.mem_cons.mp h with h | h
          · exact Event.noConfusion h
          · rcases List.mem_cons.mp h with h | h
            · exact (Event.lockAcquired.inj h).2
            · exact absurd h (List.not_mem_nil _)
        · rcases hbody _ h with ⟨m, hm⟩ | ⟨m, hm⟩ | hm
          · exact Event.noConfusion hm
          · exact Event.noConfusion hm
          · exact Event.noConfusion hm
      · rcases List.mem_cons.mp h with h | h
        · exact Event.noConfusion h
        · exact absurd h (List.not_mem_nil _)
    rw [hs, hlt]
    exact List.getLast?_concat _

/-- Witness for C7: in the `bits = 200` run the lock is acquired and the
trace ends with its release. -/
theorem datakey_lock_released_on_all_paths_witness :
    (pathDatakeyWrite sampleEnv [] dBits200).trace.getLast? =
      some (Event.lockReleased "test" LockType.shared) :=
  datakey_lock_released_on_all_paths sampleEnv [] dBits200 .shared
    (by decide)

/-- Every event of a handler trace is one of the six benign kinds — in
particular never a storage write or delete. -/
theorem datakey_trace_mem (env : TransitEnv) (st : Storage)
    (d : DatakeyFields) :
    ∀ e ∈ (pathDatakeyWrite env st d).trace,
      e = Event.getPolicyCall d.name ∨
      (∃ lt, e = Event.lockAcquired d.name lt) ∨
      (∃ lt, e = Event.lockReleased d.name lt) ∨
      (∃ m, e = Event.alloc m) ∨
      (∃ m, e = Event.randRead m) ∨
      e = Event.encryptCall d.name := by
  intro e he
  rcases datakey_trace_shape env st d with hs | hs | ⟨lt, body, hbody, hs⟩ <;>
    rw [hs] at he
  · cases he
  · rcases List.mem_cons.mp he with h | h
    · exact Or.inl h
    · exact absurd h (List.not_mem_nil _)
  · rcases List.mem_append.mp he with h | h
    · rcases List.mem_append.mp h with h | h
      · rcases List.mem_cons.mp h with h | h
        · exact Or.inl h
        · rcases List.mem_cons.mp h with h | h
          · exact Or.inr (Or.inl ⟨lt, h⟩)
          · exact absurd h (List.not_mem_nil _)
      · rcases hbody _ h with hm | hm | hm
        · exact Or.inr (Or.inr (Or.inr (Or.inl hm)))
        · exact Or.inr (Or.inr (Or.inr (Or.inr (Or.inl hm))))
        · exact Or.inr (Or.inr (Or.inr (Or.inr (Or.inr hm))))
    · rcases List.mem_cons.mp h with h | h
      · exact Or.inr (Or.inr (Or.inl ⟨lt, h⟩))
      · exact absurd h (List.not_mem_nil _)

/-- C9: the handler mutates no persisted state: whether it succeeds or
fails, the storage it hands back is the storage it was given, and its
trace holds no storage write or delete — its only storage interaction is
the policy read through the lock manager. -/
theorem datakey_no_storage_mutation (env : TransitEnv) (st : Storage)
    (d : DatakeyFields) :
    (pathDatakeyWrite env st d).storage = st ∧
    ∀ k, Event.storagePut k ∉ (pathDatakeyWrite env st d).trace ∧
         Event.storageDelete k ∉ (pathDatakeyWrite env st d).trace := by
  constructor
  · unfold pathDatakeyWrite
    split
    · rfl
    · simp only
      split
      · rfl
      · split <;> rfl
  · intro k
    constructor <;> intro hmem <;>
      rcases datakey_trace_mem env st d _ hmem with
        h | ⟨lt, h⟩ | ⟨lt, h⟩ | ⟨m, h⟩ | ⟨m, h⟩ | h <;>
      exact Event.noConfusion h

/-- C10: a successful response never carries an empty ciphertext — and
when the policy encryption yields an empty string, the handler fails with
the internal error `empty ciphertext returned` instead of answering. -/
theorem datakey_nonempty_ciphertext (env : TransitEnv) (st : Storage)
    (d : DatakeyFields) :
    (∀ ct pt, (pathDatakeyWrite env st d).result = .ok ct pt → ct ≠ "") ∧
    (∀ p lt context n newKey,
      (d.plaintext = "plaintext" ∨ d.plaintext = "wrapped") →
      decodeContextField d.context = some context →
      env.getPolicy st d.name = .ok (some (p, lt)) →
      bitsBufLen d.getBits = some n →
      env.randRead n = .ok newKey →
      env.encrypt p context (base64EncodeStr newKey) = .ok "" →
      (pathDatakeyWrite env st d).result =
        .fail "empty ciphertext returned") := by
  constructor
  · intro ct pt h
    obtain ⟨_, _, _, _, _, _, _, _, _, _, _, hct, _⟩ :=
      datakey_success_inversion env st d ct pt h
    exact hct
  · intro p lt context n newKey hmode hctx hpol hbits hrand henc
    unfold pathDatakeyWrite datakeyBody
    rw [if_neg (by rcases hmode with hm | hm <;> simp [hm])]
    simp only [hctx, hpol, hbits, hrand, henc]
    simp

/-- Witness for C10: the sample success run has a non-empty ciphertext,
and the environment whose encryption returns the empty string makes the
handler fail with the internal error. -/
theorem datakey_nonempty_ciphertext_witness :
    ("1:" ++ base64EncodeStr (List.replicate 32 0)) ≠ "" ∧
    (pathDatakeyWrite emptyCtEnv [] dPlain).result =
      .fail "empty ciphertext returned" :=
  ⟨(datakey_nonempty_ciphertext sampleEnv [] dPlain).1 _
      (some (base64EncodeStr (List.replicate 32 0))) rfl,
   (datakey_nonempty_ciphertext emptyCtEnv [] dPlain).2 samplePolicy .shared
      [] 32 (List.replicate 32 0) (Or.inl rfl) rfl rfl rfl rfl rfl⟩

/-- C8: for a well-formed non-derived policy, decrypting the envelope
produced by encrypting any plaintext returns that plaintext. -/
theorem policy_encrypt_decrypt_roundtrip (p : Policy) (m : List Nat)
    (hwf : p.WF) (hd : p.derived = false) :
    ∃ e, p.Encrypt [] m = .ok e ∧ p.Decrypt [] e = .ok m := by
  obtain ⟨hne, hlen, hmd1, hmde, hmel, _⟩ := hwf
  have hpos : 0 < p.versions.length := List.length_pos.mpr hne
  have hlt : p.latestVersion - 1 < p.versions.length := by omega
  obtain ⟨key, hkey⟩ : ∃ key, p.versions[p.latestVersion - 1]? = some key := by
    rw [List.getElem?_eq_getElem hlt]
    exact ⟨_, rfl⟩
  have hres : p.resolveKey p.latestVersion [] = .ok key := by
    unfold Policy.resolveKey
    rw [if_neg (by simp [hd]), hkey]
    simp [hd]
  refine ⟨⟨p.latestVersion, xorStream key m, macTag key m⟩, ?_, ?_⟩
  · simp only [Policy.Encrypt]
    rw [hres]
  · simp only [Policy.Decrypt]
    rw [if_neg (by omega), hres]
    simp [xorStream_involutive]

/-- Witness for C8 at the concrete sample policy and plaintext
`[5, 6, 7]`. -/
theorem policy_encrypt_decrypt_roundtrip_witness :
    ∃ e, samplePolicy.Encrypt [] [5, 6, 7] = .ok e ∧
      samplePolicy.Decrypt [] e = .ok [5, 6, 7] :=
  policy_encrypt_decrypt_roundtrip samplePolicy [5, 6, 7] (by decide) rfl
